import Mathlib

/-!
Shallow embedding of the I/O utilities of the `rrg` repository
(`src/io.rs`): the conditional copy loop `copy_until` and the
chunk-sequence reader `IterReader`, together with proofs of the
specified properties.

Bytes are modelled as natural numbers.  A `Read` source is modelled as a
state type `σ` with a step function returning either the bytes placed in
the scratch buffer or an error of some kind; a `Write` sink is a state
type `ω` with a `write_all`-style step that fully accepts a byte slice
or fails.  The loop of `copy_until` is given a fuel parameter: the Rust
loop terminates exactly when some finite fuel suffices.
-/

namespace RRG

/-- The scratch-buffer size of `copy_until` (`DEFAULT_BUF_SIZE` in
`src/io.rs`, the same as in the Rust standard library). -/
def DEFAULT_BUF_SIZE : Nat := 8 * 1024

/-- Kinds of I/O errors, as distinguished by `copy_until`:
`std::io::ErrorKind::Interrupted` versus every other kind. -/
inductive ErrorKind where
  | interrupted : ErrorKind
  | other (code : Nat) : ErrorKind
deriving DecidableEq, Repr

/-- Result of one `read` call of a source: either the bytes read into
the caller's buffer (`Ok(len)` together with `buf[..len]`), or an error
of some kind. -/
inductive ReadResult where
  | ok (bytes : List Nat) : ReadResult
  | err (kind : ErrorKind) : ReadResult
deriving DecidableEq, Repr

/-- A byte source (`R: Read`): a stateful `read` step.  The returned
list is the content `buf[..len]` that a call `reader.read(&mut buf)`
deposits in the scratch buffer. -/
structure Reader (σ : Type) where
  read : σ → ReadResult × σ

/-- A byte sink (`W: Write`), at the granularity `copy_until` uses it:
a `write_all` step that either fully accepts the slice or fails. -/
structure Writer (ω : Type) where
  writeAll : ω → List Nat → Except ErrorKind ω

/-- Outcome of `copy_until`: `Ok(())`, `Err(error)`, or fuel
exhaustion (an artefact of embedding the unbounded `loop`). -/
inductive CopyResult where
  | success : CopyResult
  | failure (kind : ErrorKind) : CopyResult
  | outOfFuel : CopyResult
deriving DecidableEq, Repr

/-- The loop of `copy_until` (`src/io.rs`, lines 52-69), with explicit
fuel.  Each iteration: evaluate the predicate and break on `true`; read
into the scratch buffer, breaking on `Ok(0)`, retrying on an
`Interrupted` error and propagating any other error; then `write_all`
the bytes read, propagating a write error. -/
def copyUntil {σ ω : Type} (rd : Reader σ) (wr : Writer ω)
    (pred : σ → ω → Bool) : Nat → σ → ω → CopyResult × σ × ω
  | 0, s, w => (.outOfFuel, s, w)
  | fuel + 1, s, w =>
    if pred s w then
      (.success, s, w)
    else
      match rd.read s with
      | (.ok [], s') => (.success, s', w)
      | (.ok bs, s') =>
        match wr.writeAll w bs with
        | .ok w' => copyUntil rd wr pred fuel s' w'
        | .error e => (.failure e, s', w)
      | (.err .interrupted, s') => copyUntil rd wr pred fuel s' w
      | (.err e, s') => (.failure e, s', w)

/-- The `Read` instance of a byte slice `&[u8]`: a read call copies
`min(buf.len(), self.len())` bytes and advances the slice.  `copy_until`
reads through a buffer of `DEFAULT_BUF_SIZE` bytes. -/
def sliceReader : Reader (List Nat) :=
  ⟨fun s => (.ok (s.take DEFAULT_BUF_SIZE), s.drop DEFAULT_BUF_SIZE)⟩

/-- The `Write` instance of `Vec<u8>`: `write_all` appends the slice
and never fails. -/
def vecWriter : Writer (List Nat) :=
  ⟨fun w bs => .ok (w ++ bs)⟩

/-- The chunk-sequence reader `IterReader` (`src/io.rs`, lines 72-86):
the not-yet-pulled remainder of the underlying iterator, and the
current chunk (`curr`), itself a slice that read calls advance. -/
structure IterReader where
  iter : List (List Nat)
  curr : Option (List Nat)
deriving DecidableEq, Repr

/-- The loop of `IterReader::read` (`src/io.rs`, lines 93-115) on the
two state components, with the caller's buffer capacity `n`.  If there
is no current chunk, pull one from the iterator, returning `Ok(0)` if
it is exhausted; a slice read of 0 bytes from the current chunk drops
it and retries; otherwise the bytes read are returned and the chunk
slice advances. -/
def readCore (n : Nat) :
    List (List Nat) → Option (List Nat) →
      List Nat × List (List Nat) × Option (List Nat)
  | iter, some c =>
    if (c.take n).isEmpty then
      readCore n iter none
    else
      (c.take n, iter, some (c.drop n))
  | [], none => ([], [], none)
  | c :: rest, none => readCore n rest (some c)
termination_by iter curr =>
  2 * iter.length + (match curr with | some _ => 1 | none => 0)

/-- `IterReader::read`, assembling `readCore` over the structure. -/
def IterReader.read (r : IterReader) (n : Nat) : List Nat × IterReader :=
  match readCore n r.iter r.curr with
  | (bs, iter', curr') => (bs, ⟨iter', curr'⟩)

/-- The cursor invariant claimed by the specification: whenever a
cursor is held, its chunk has at least one unread byte remaining, or
the cursor is empty. -/
def cursorInv (r : IterReader) : Bool :=
  match r.curr with
  | none => true
  | some c => !c.isEmpty

/-- Repeated reads: the list of byte blocks produced by `k` successive
read calls with a buffer of capacity `n`. -/
def readRuns (r : IterReader) (n : Nat) : Nat → List (List Nat)
  | 0 => []
  | k + 1 =>
    match r.read n with
    | (bs, r') => bs :: readRuns r' n k

/-- Observer of the `copy_until` loop when the sink is a byte vector:
the concatenation, in order, of the byte blocks successfully read from
the source before the loop stops (retried `Interrupted` attempts
contribute nothing). -/
def bytesRead {σ : Type} (rd : Reader σ) (pred : σ → List Nat → Bool) :
    Nat → σ → List Nat → List Nat
  | 0, _, _ => []
  | fuel + 1, s, w =>
    if pred s w then
      []
    else
      match rd.read s with
      | (.ok [], _) => []
      | (.ok bs, s') => bs ++ bytesRead rd pred fuel s' (w ++ bs)
      | (.err .interrupted, s') => bytesRead rd pred fuel s' w
      | (.err _, _) => []

/-- A source that always reads one byte: a model of `std::io::repeat`. -/
def constReader : Reader Unit :=
  ⟨fun _ => (.ok [66], ())⟩

/-- A source whose first read reports `Interrupted` and which is
exhausted afterwards. -/
def intReader : Reader Nat :=
  ⟨fun s => if s = 0 then (.err .interrupted, 1) else (.ok [], s)⟩

/-- A source whose first read fails with a non-`Interrupted` error. -/
def errReader : Reader Nat :=
  ⟨fun s => if s = 0 then (.err (.other 7), 1) else (.ok [], s)⟩

/-- A source that always reads the single byte 5. -/
def okReader : Reader Unit :=
  ⟨fun _ => (.ok [5], ())⟩

/-- A sink whose writes always fail. -/
def failWriter : Writer Unit :=
  ⟨fun _ _ => .error (.other 3)⟩

/-- Pulling a chunk: with no current chunk, the loop takes the next
chunk of the iterator and retries. -/
theorem readCore_cons_none (n : Nat) (c : List Nat) (rest : List (List Nat)) :
    readCore n (c :: rest) none = readCore n rest (some c) := by
  simp [readCore]

/-- A stale empty current chunk is dropped: reading 0 bytes from it
sets the cursor to none and the loop retries. -/
theorem readCore_some_nil (n : Nat) (iter : List (List Nat)) :
    readCore n iter (some []) = readCore n iter none := by
  simp [readCore]

/-- With a zero-capacity buffer and no current chunk, the loop drains
the whole iterator and returns 0 bytes. -/
theorem readCore_zero_none (iter : List (List Nat)) :
    readCore 0 iter none = ([], [], none) := by
  induction iter with
  | nil => simp [readCore]
  | cons c rest ih => rw [readCore_cons_none]; simp [readCore, ih]

/-- With a zero-capacity buffer, the loop drains the whole remaining
sequence and returns 0 bytes. -/
theorem readCore_zero (iter : List (List Nat)) (curr : Option (List Nat)) :
    readCore 0 iter curr = ([], [], none) := by
  cases curr with
  | none => exact readCore_zero_none iter
  | some c => simp [readCore, readCore_zero_none iter]

/-- A read whose buffer capacity covers the whole nonempty current
chunk returns the chunk entire and leaves the cursor holding the
now-empty chunk slice. -/
theorem readCore_consume_all (n : Nat) (c : List Nat) (iter : List (List Nat))
    (hne : c ≠ []) (hlen : c.length ≤ n) :
    readCore n iter (some c) = (c, iter, some []) := by
  rw [readCore]
  rw [List.take_of_length_le hlen, List.drop_eq_nil_of_le hlen]
  simp [List.isEmpty_eq_false.mpr hne]

/-- C3 counterexample: reading the single chunk [1] through a 2-byte
buffer consumes the chunk entirely, yet the returned state still holds
the cursor, now over an empty chunk: the claimed invariant (a held
cursor has at least one unread byte) is false after this read call, and
the cursor did not transition back to Empty before returning. -/
theorem cursor_invariant_counterexample :
    IterReader.read ⟨[[1]], none⟩ 2 = ([1], ⟨[], some []⟩) ∧
    cursorInv (IterReader.read ⟨[[1]], none⟩ 2).2 = false := by
  constructor
  · simp [IterReader.read, readCore]
  · simp [IterReader.read, readCore, cursorInv]

/-- C3 (amended): a read call that consumes the last remaining bytes of
the active chunk returns with the cursor still holding the now-empty
chunk rather than transitioning to Empty; the stale empty cursor is
discarded at the start of the next read call, which behaves exactly as
if the cursor were Empty. -/
theorem cursor_empty_chunk_lazy_cleanup :
    (∀ (iter : List (List Nat)) (c : List Nat) (n : Nat), c ≠ [] →
      c.length ≤ n → IterReader.read ⟨iter, some c⟩ n = (c, ⟨iter, some []⟩)) ∧
    (∀ (iter : List (List Nat)) (n : Nat),
      IterReader.read ⟨iter, some []⟩ n = IterReader.read ⟨iter, none⟩ n) := by
  constructor
  · intro iter c n hne hlen
    simp [IterReader.read, readCore_consume_all n c iter hne hlen]
  · intro iter n
    simp [IterReader.read, readCore_some_nil]

/-- Witness for the amended C3 theorem at concrete inputs. -/
theorem cursor_empty_chunk_lazy_cleanup_witness :
    IterReader.read ⟨[[2, 3]], some [9]⟩ 4 = ([9], ⟨[[2, 3]], some []⟩) ∧
    IterReader.read ⟨[[2, 3]], some []⟩ 4 = IterReader.read ⟨[[2, 3]], none⟩ 4 := by
  constructor
  · exact cursor_empty_chunk_lazy_cleanup.1 [[2, 3]] [9] 4 (by decide) (by decide)
  · exact cursor_empty_chunk_lazy_cleanup.2 [[2, 3]] 4

/-- C6 counterexample: over the chunks "fo", "oba", "r" with a 2-byte
buffer, the first four reads are "fo", "ob", "a", "r" — not "fo", "ob",
"ar", 0 as claimed: a read never spans a chunk boundary, so the third
read returns the single byte "a". -/
theorem chunk_reads_counterexample :
    readRuns ⟨[[102, 111], [111, 98, 97], [114]], none⟩ 2 4 =
      [[102, 111], [111, 98], [97], [114]] ∧
    ([[102, 111], [111, 98], [97], [114]] : List (List Nat)) ≠
      [[102, 111], [111, 98], [97, 114], []] := by
  constructor
  · simp [readRuns, IterReader.read, readCore]
  · decide

/-- C6 (amended): over the chunks "fo", "oba", "r" with a 2-byte
buffer, the reads are, in order, "fo", "ob", "a", "r", then a 0-byte
end-of-stream read; the concatenation of all bytes delivered equals
"foobar". -/
theorem chunk_reads_foobar :
    readRuns ⟨[[102, 111], [111, 98, 97], [114]], none⟩ 2 5 =
      [[102, 111], [111, 98], [97], [114], []] ∧
    ([[102, 111], [111, 98], [97], [114], []] : List (List Nat)).flatten =
      [102, 111, 111, 98, 97, 114] := by
  constructor
  · simp [readRuns, IterReader.read, readCore]
  · decide

/-- Projection of a read onto the bytes returned: the loop result's
first component. -/
theorem read_fst (r : IterReader) (n : Nat) :
    (r.read n).1 = (readCore n r.iter r.curr).1 := by
  rcases h : readCore n r.iter r.curr with ⟨bs, i, c⟩
  simp [IterReader.read, h]

/-- With a nonempty caller buffer, the loop returns 0 bytes exactly
when every remaining chunk — the current one included — is empty. -/
theorem readCore_fst_nil_iff (n : Nat) (hn : 1 ≤ n) :
    ∀ (iter : List (List Nat)) (curr : Option (List Nat)),
      (readCore n iter curr).1 = [] ↔
        (∀ c ∈ iter, c = []) ∧ ∀ c, curr = some c → c = [] := by
  intro iter
  induction iter with
  | nil =>
    intro curr
    rcases curr with _ | ⟨_ | ⟨b, bs⟩⟩
    · simp [readCore]
    · rw [readCore_some_nil]
      simp [readCore]
    · rcases n with _ | m
      · exact absurd hn (by decide)
      · rw [readCore]
        simp [List.take_succ_cons]
  | cons d rest ih =>
    intro curr
    rcases curr with _ | ⟨_ | ⟨b, bs⟩⟩
    · rw [readCore_cons_none, ih (some d)]
      simp [List.forall_mem_cons]
      tauto
    · rw [readCore_some_nil, readCore_cons_none, ih (some d)]
      simp [List.forall_mem_cons]
      tauto
    · rcases n with _ | m
      · exact absurd hn (by decide)
      · rw [readCore]
        simp [List.take_succ_cons]

/-- C7: with a nonempty caller buffer the reader reports end of stream
(a 0-byte read) exactly when no bytes remain in the sequence; in
particular a reader over an empty chunk sequence returns 0 bytes on
the very first read, and over the sequence ["", "ab"] no 0-byte read
occurs before "ab" is delivered: with a 1-byte buffer the first two
reads are "a" then "b", and with a buffer of capacity at least 2 the
first read delivers "ab" whole — the empty chunk is skipped
transparently. -/
theorem eof_iff_no_bytes_remain :
    (∀ n : Nat, (IterReader.read ⟨[], none⟩ n).1 = []) ∧
    (∀ (n : Nat) (r : IterReader), 1 ≤ n →
      ((r.read n).1 = [] ↔
        (∀ c ∈ r.iter, c = []) ∧ ∀ c, r.curr = some c → c = [])) ∧
    readRuns ⟨[[], [97, 98]], none⟩ 1 2 = [[97], [98]] ∧
    (∀ n : Nat, 2 ≤ n → (IterReader.read ⟨[[], [97, 98]], none⟩ n).1 = [97, 98]) := by
  refine ⟨fun n => ?_, fun n r hn => ?_, ?_, fun n hn => ?_⟩
  · simp [IterReader.read, readCore]
  · rw [read_fst]
    exact readCore_fst_nil_iff n hn r.iter r.curr
  · simp [readRuns, IterReader.read, readCore]
  · rw [IterReader.read]
    rw [readCore_cons_none, readCore_some_nil, readCore_cons_none]
    rw [readCore_consume_all n [97, 98] [] (by decide) (by simpa using hn)]

/-- Witness for the C7 theorem at concrete buffer capacities and a
concrete nonempty reader. -/
theorem eof_iff_no_bytes_remain_witness :
    (IterReader.read ⟨[], none⟩ 3).1 = [] ∧
    ((IterReader.read ⟨[[1, 2]], none⟩ 1).1 = [] ↔
      (∀ c ∈ ([[1, 2]] : List (List Nat)), c = []) ∧
        ∀ c : List Nat, (none : Option (List Nat)) = some c → c = []) ∧
    (IterReader.read ⟨[[], [97, 98]], none⟩ 2).1 = [97, 98] :=
  ⟨eof_iff_no_bytes_remain.1 3,
    eof_iff_no_bytes_remain.2.1 1 ⟨[[1, 2]], none⟩ (by decide),
    eof_iff_no_bytes_remain.2.2.2 2 (by decide)⟩

/-- C10: a read with a zero-capacity buffer returns 0 bytes and
consumes the entire remaining sequence — the active chunk and all
chunks not yet pulled are discarded — and every subsequent read, with
any buffer, also returns 0 bytes from the drained state. -/
theorem read_zero_capacity_drains (chunks : List (List Nat))
    (curr : Option (List Nat)) (n : Nat) :
    IterReader.read ⟨chunks, curr⟩ 0 = ([], ⟨[], none⟩) ∧
    IterReader.read ⟨[], none⟩ n = ([], ⟨[], none⟩) := by
  constructor
  · simp [IterReader.read, readCore_zero]
  · simp [IterReader.read, readCore]

/-- Copying a byte slice with an always-false predicate transfers the
whole slice into the sink, one buffer round at a time. -/
theorem copyUntil_slice_pred_false (fuel : Nat) :
    ∀ B w : List Nat, B.length < fuel →
      copyUntil sliceReader vecWriter (fun _ _ => false) fuel B w =
        (.success, [], w ++ B) := by
  induction fuel with
  | zero => intro B w h; exact absurd h (Nat.not_lt_zero _)
  | succ fuel ih =>
    intro B w h
    cases B with
    | nil => simp [copyUntil, sliceReader]
    | cons b bs =>
      have hlt : (bs.drop 8191).length < fuel := by
        simp only [List.length_drop]
        simp only [List.length_cons] at h
        omega
      have hread : sliceReader.read (b :: bs) =
          (.ok (b :: bs.take 8191), bs.drop 8191) := rfl
      have hwrite : vecWriter.writeAll w (b :: bs.take 8191) =
          .ok (w ++ b :: bs.take 8191) := rfl
      simp only [copyUntil, hread, hwrite, Bool.false_eq_true, if_false]
      rw [ih _ _ hlt]
      simp [List.take_append_drop]

/-- C1: copying a finite byte source into an initially empty sink with
an always-false predicate returns success and leaves the sink holding
exactly the source bytes, in order, with no duplication or truncation
(any fuel beyond the source length suffices, so the loop terminates). -/
theorem copy_all_on_false_pred (B : List Nat) (fuel : Nat) (h : B.length < fuel) :
    copyUntil sliceReader vecWriter (fun _ _ => false) fuel B [] =
      (.success, [], B) := by
  simpa using copyUntil_slice_pred_false fuel B [] h

/-- Witness for the C1 theorem at a concrete three-byte source. -/
theorem copy_all_on_false_pred_witness :
    copyUntil sliceReader vecWriter (fun _ _ => false) 4 [1, 2, 3] [] =
      (.success, [], [1, 2, 3]) :=
  copy_all_on_false_pred [1, 2, 3] 4 (by decide)

/-- Invariant of the threshold-predicate copy loop over an infinite
source: one extra unit of fuel per byte still missing below the
threshold suffices, the loop stops only once the sink length exceeds
the threshold, and it overshoots by at most one buffer round. -/
theorem copyUntil_threshold_aux {σ : Type} (rd : Reader σ) (L : Nat)
    (hInf : ∀ s, ∃ bs s', rd.read s = (.ok bs, s') ∧ bs ≠ [] ∧
      bs.length ≤ DEFAULT_BUF_SIZE) :
    ∀ (fuel : Nat) (s : σ) (w : List Nat), 1 ≤ fuel →
      L + 2 ≤ fuel + w.length → w.length ≤ L + DEFAULT_BUF_SIZE →
      ∃ s' out,
        copyUntil rd vecWriter (fun _ w => decide (L < w.length)) fuel s w =
          (.success, s', out) ∧
        L < out.length ∧ out.length ≤ L + DEFAULT_BUF_SIZE := by
  intro fuel
  induction fuel with
  | zero => intro s w h1 _ _; exact absurd h1 (by decide)
  | succ fuel ih =>
    intro s w _ h2 h3
    by_cases hp : L < w.length
    · refine ⟨s, w, ?_, hp, h3⟩
      simp [copyUntil, hp]
    · obtain ⟨bs, s', hread, hne, hlen⟩ := hInf s
      cases bs with
      | nil => exact absurd rfl hne
      | cons b bs' =>
        have hwrite : vecWriter.writeAll w (b :: bs') =
            .ok (w ++ b :: bs') := rfl
        have step :
            copyUntil rd vecWriter (fun _ w => decide (L < w.length))
                (fuel + 1) s w =
              copyUntil rd vecWriter (fun _ w => decide (L < w.length))
                fuel s' (w ++ b :: bs') := by
          simp [copyUntil, hp, hread, hwrite]
        rw [step]
        apply ih s' (w ++ b :: bs')
        · omega
        · simp only [List.length_append, List.length_cons]
          omega
        · simp only [List.length_cons] at hlen
          simp only [List.length_append, List.length_cons]
          omega

/-- C2: over a never-exhausted, never-failing source whose reads fit
the scratch buffer, the copy loop with predicate "sink length exceeds
L" terminates (fuel L + 2 suffices) with success, and the final sink
length lies strictly above L and at most L plus the buffer size: the
stop is detected within one buffer round and never before the
threshold. -/
theorem copy_stops_past_threshold {σ : Type} (rd : Reader σ) (L : Nat)
    (hInf : ∀ s, ∃ bs s', rd.read s = (.ok bs, s') ∧ bs ≠ [] ∧
      bs.length ≤ DEFAULT_BUF_SIZE)
    (fuel : Nat) (s : σ) (hfuel : L + 2 ≤ fuel) :
    ∃ s' out,
      copyUntil rd vecWriter (fun _ w => decide (L < w.length)) fuel s [] =
        (.success, s', out) ∧
      L < out.length ∧ out.length ≤ L + DEFAULT_BUF_SIZE :=
  copyUntil_threshold_aux rd L hInf fuel s [] (by omega) (by simpa using hfuel)
    (by simp)

/-- Witness for the C2 theorem over a concrete one-byte-per-read
infinite source. -/
theorem copy_stops_past_threshold_witness :
    ∃ s' out,
      copyUntil constReader vecWriter (fun _ w => decide (0 < w.length)) 2 () [] =
        (.success, s', out) ∧
      0 < out.length ∧ out.length ≤ 0 + DEFAULT_BUF_SIZE :=
  copy_stops_past_threshold constReader 0
    (fun _ => ⟨[66], (), rfl, by decide, by decide⟩) 2 () (by decide)

/-- C4: an `Interrupted` read is retried transparently: the iteration
that hits it is discarded — no bytes reach the sink — and the loop
restarts from the predicate check, identical to any other iteration;
and provided the sink's `write_all` never reports `Interrupted` (as
`std::io::Write::write_all` never does), `copy_until` never returns an
`Interrupted` error to the caller. -/
theorem interrupted_retried_never_surfaced {σ ω : Type} (rd : Reader σ)
    (wr : Writer ω) (pred : σ → ω → Bool)
    (hw : ∀ (w : ω) (bs : List Nat), wr.writeAll w bs ≠ .error .interrupted) :
    (∀ (fuel : Nat) (s : σ) (w : ω) (s' : σ), pred s w = false →
      rd.read s = (.err .interrupted, s') →
      copyUntil rd wr pred (fuel + 1) s w = copyUntil rd wr pred fuel s' w) ∧
    (∀ (fuel : Nat) (s : σ) (w : ω),
      (copyUntil rd wr pred fuel s w).1 ≠ .failure .interrupted) := by
  constructor
  · intro fuel s w s' hp hr
    simp [copyUntil, hp, hr]
  · intro fuel
    induction fuel with
    | zero => intro s w; simp [copyUntil]
    | succ fuel ih =>
      intro s w
      cases hp : pred s w with
      | true => simp [copyUntil, hp]
      | false =>
        rcases hr : rd.read s with ⟨res, s'⟩
        cases res with
        | ok bs =>
          cases bs with
          | nil => simp [copyUntil, hp, hr]
          | cons b bs' =>
            rcases hwr : wr.writeAll w (b :: bs') with e | w'
            · have hne := hw w (b :: bs')
              rw [hwr] at hne
              simp only [copyUntil, hp, hr, hwr, Bool.false_eq_true, if_false]
              intro hcontra
              apply hne
              have hfail : CopyResult.failure e =
                  CopyResult.failure ErrorKind.interrupted := hcontra
              injection hfail with he
              rw [he]
            · simp only [copyUntil, hp, hr, hwr, Bool.false_eq_true, if_false]
              exact ih s' w'
        | err k =>
          cases k with
          | interrupted =>
            simp only [copyUntil, hp, hr, Bool.false_eq_true, if_false]
            exact ih s' w
          | other c => simp [copyUntil, hp, hr]

/-- Witness for the C4 theorem: a concrete source whose first read is
interrupted, copied into a byte-vector sink. -/
theorem interrupted_retried_never_surfaced_witness :
    copyUntil intReader vecWriter (fun _ _ => false) 2 0 [] =
      copyUntil intReader vecWriter (fun _ _ => false) 1 1 [] ∧
    (copyUntil intReader vecWriter (fun _ _ => false) 5 0 []).1 ≠
      .failure .interrupted := by
  have h := interrupted_retried_never_surfaced intReader vecWriter
    (fun _ _ => false) (fun w bs => by simp [vecWriter])
  exact ⟨h.1 1 0 [] 1 rfl rfl, h.2 5 0 []⟩

/-- C5: a non-`Interrupted` read error, or a write error, aborts the
copy at once: the loop returns exactly that error, does not touch the
source again, and leaves the sink exactly as it was at the start of
the failing iteration — everything written in earlier rounds remains,
with no rollback. -/
theorem error_propagates_immediately {σ ω : Type} (rd : Reader σ)
    (wr : Writer ω) (pred : σ → ω → Bool) :
    (∀ (fuel : Nat) (s : σ) (w : ω) (s' : σ) (c : Nat), pred s w = false →
      rd.read s = (.err (.other c), s') →
      copyUntil rd wr pred (fuel + 1) s w = (.failure (.other c), s', w)) ∧
    (∀ (fuel : Nat) (s : σ) (w : ω) (s' : σ) (b : Nat) (bs : List Nat)
        (e : ErrorKind), pred s w = false →
      rd.read s = (.ok (b :: bs), s') → wr.writeAll w (b :: bs) = .error e →
      copyUntil rd wr pred (fuel + 1) s w = (.failure e, s', w)) := by
  constructor
  · intro fuel s w s' c hp hr
    simp [copyUntil, hp, hr]
  · intro fuel s w s' b bs e hp hr hwr
    simp [copyUntil, hp, hr, hwr]

/-- Witness for the C5 theorem: a concrete failing read and a concrete
failing write. -/
theorem error_propagates_immediately_witness :
    copyUntil errReader vecWriter (fun _ _ => false) 3 0 [] =
      (.failure (.other 7), 1, []) ∧
    copyUntil okReader failWriter (fun _ _ => false) 3 () () =
      (.failure (.other 3), (), ()) := by
  constructor
  · exact (error_propagates_immediately errReader vecWriter
      (fun _ _ => false)).1 2 0 [] 1 7 rfl rfl
  · exact (error_propagates_immediately okReader failWriter
      (fun _ _ => false)).2 2 () () () 5 [] (.other 3) rfl rfl rfl

/-- C8: when the predicate holds on its very first evaluation, the copy
returns success at once, with the source state untouched (no read ever
attempted) and the sink state unchanged — an initially empty sink
remains empty. -/
theorem pred_true_no_read {σ ω : Type} (rd : Reader σ) (wr : Writer ω)
    (pred : σ → ω → Bool) (fuel : Nat) (s : σ) (w : ω)
    (h : pred s w = true) :
    copyUntil rd wr pred (fuel + 1) s w = (.success, s, w) := by
  simp [copyUntil, h]

/-- Witness for the C8 theorem on a concrete nonempty source. -/
theorem pred_true_no_read_witness :
    copyUntil sliceReader vecWriter (fun _ _ => true) 1 [1, 2] [] =
      (.success, [1, 2], []) :=
  pred_true_no_read sliceReader vecWriter (fun _ _ => true) 0 [1, 2] [] rfl

/-- C9: with a byte-vector sink, whatever the source, predicate, and
fuel, the sink on return holds its initial content followed by exactly
the bytes successfully read from the source, in read order — the loop
never fabricates, drops, duplicates, or reorders bytes between a
successful read and its write. -/
theorem sink_receives_exactly_reads {σ : Type} (rd : Reader σ)
    (pred : σ → List Nat → Bool) (fuel : Nat) (s : σ) (w : List Nat) :
    (copyUntil rd vecWriter pred fuel s w).2.2 =
      w ++ bytesRead rd pred fuel s w := by
  induction fuel generalizing s w with
  | zero => simp [copyUntil, bytesRead]
  | succ fuel ih =>
    cases hp : pred s w with
    | true => simp [copyUntil, bytesRead, hp]
    | false =>
      rcases hr : rd.read s with ⟨res, s'⟩
      cases res with
      | ok bs =>
        cases bs with
        | nil => simp [copyUntil, bytesRead, hp, hr]
        | cons b bs' =>
          have hwrite : vecWriter.writeAll w (b :: bs') =
              .ok (w ++ b :: bs') := rfl
          simp only [copyUntil, bytesRead, hp, hr, hwrite,
            Bool.false_eq_true, if_false]
          rw [ih]
          simp
      | err k =>
        cases k with
        | interrupted =>
          simp only [copyUntil, bytesRead, hp, hr, Bool.false_eq_true,
            if_false]
          exact ih s' w
        | other c => simp [copyUntil, bytesRead, hp, hr]

end RRG
